import Mathlib

/-!
Verification of the streaming transcoder of the OpenAI-compatible
Cloudflare Workers AI gateway: a shallow embedding of
createChatStreamTransformer and createCompletionStreamTransformer
(src/unnamed/part_003, lines 172-327) together with the JavaScript
runtime pieces they rely on (TextDecoder without the stream option,
TextEncoder, JSON.parse, JSON.stringify, String.prototype.indexOf,
slice, trim, startsWith, property access and truthiness).

Modelling conventions:
 * JS strings are lists of Unicode code points (List Char); byte streams
   are lists of byte values (List Nat).
 * JSON numbers are restricted to integers; the parser rejects fraction
   and exponent forms (no claim depends on non-integer numerics).
 * A JS string that would contain a lone surrogate (only producible via
   a \u escape) is modelled with U+FFFD, matching what TextEncoder
   produces on the output path.
 * Recursive loops are defined with an explicit fuel argument plus a
   wrapper supplying sufficient fuel, so that all definitions reduce in
   the kernel; fuel-irrelevance lemmas recover the loop equations.
-/

set_option linter.unusedVariables false

namespace Gateway

/-- The code points of a string literal. -/
def chars (s : String) : List Char := s.data

/-- Left brace character. -/
def lbrace : Char := Char.ofNat 0x7B

/-- Right brace character. -/
def rbrace : Char := Char.ofNat 0x7D

/-- JSON values as produced by JSON.parse and consumed by
JSON.stringify.  Object fields are kept in insertion order, as JS
objects do. -/
inductive Json where
  | null
  | bool (b : Bool)
  | num (n : Int)
  | str (s : List Char)
  | arr (elems : List Json)
  | obj (fields : List (List Char × Json))

/-- Look a key up in an ordered field list (first match). -/
def lookupField : List (List Char × Json) → List Char → Option Json
  | [], _ => none
  | (k, v) :: rest, key => if k = key then some v else lookupField rest key

/-- JS property access `x.k` on a JSON value: `none` plays the role of
`undefined` (also for property access on primitives, which yields
`undefined` in JS). -/
def getProp : Json → List Char → Option Json
  | .obj fs, key => lookupField fs key
  | _, _ => none

/-- JS truthiness of a JSON value (`if (x)`).  `none`/`undefined` is
handled at use sites. -/
def truthy : Json → Bool
  | .null => false
  | .bool b => b
  | .num n => decide (n ≠ 0)
  | .str s => decide (s ≠ [])
  | .arr _ => true
  | .obj _ => true

/-- Decimal digit accumulation, most significant first. -/
def natToCharsFuel : Nat → Nat → List Char → List Char
  | 0, _, acc => acc
  | fuel + 1, n, acc =>
    if n = 0 then acc else natToCharsFuel fuel (n / 10) (Nat.digitChar (n % 10) :: acc)

/-- Decimal representation of a natural number, as JS prints integral
numbers. -/
def natToChars (n : Nat) : List Char :=
  if n = 0 then ['0'] else natToCharsFuel (n + 1) n []

/-- Decimal representation of an integer. -/
def intToChars : Int → List Char
  | .ofNat n => natToChars n
  | .negSucc m => '-' :: natToChars (m + 1)

/-- JSON.stringify escaping for one character of a string value. -/
def escapeChar (c : Char) : List Char :=
  if c = '"' then ['\\', '"']
  else if c = '\\' then ['\\', '\\']
  else if c = '\n' then ['\\', 'n']
  else if c = '\r' then ['\\', 'r']
  else if c = '\t' then ['\\', 't']
  else if c = Char.ofNat 0x08 then ['\\', 'b']
  else if c = Char.ofNat 0x0C then ['\\', 'f']
  else if c.toNat < 0x20 then
    ['\\', 'u', '0', '0', Nat.digitChar (c.toNat / 16), Nat.digitChar (c.toNat % 16)]
  else [c]

/-- A JSON string literal: quote, escape, quote. -/
def quoteStr (s : List Char) : List Char := '"' :: s.flatMap escapeChar ++ ['"']

mutual

/-- JSON.stringify of a value (insertion-ordered fields, no spacing),
as the transformers use to serialize the frames they emit. -/
def jsonStringify : Json → List Char
  | .null => chars "null"
  | .bool true => chars "true"
  | .bool false => chars "false"
  | .num n => intToChars n
  | .str s => quoteStr s
  | .arr xs => '[' :: stringifyElems xs ++ [']']
  | .obj fs => lbrace :: stringifyFields fs ++ [rbrace]

/-- Comma-separated serialization of array elements. -/
def stringifyElems : List Json → List Char
  | [] => []
  | [x] => jsonStringify x
  | x :: y :: rest => jsonStringify x ++ ',' :: stringifyElems (y :: rest)

/-- Comma-separated serialization of object members. -/
def stringifyFields : List (List Char × Json) → List Char
  | [] => []
  | [(k, v)] => quoteStr k ++ ':' :: jsonStringify v
  | (k, v) :: f :: rest => quoteStr k ++ ':' :: jsonStringify v ++ ',' :: stringifyFields (f :: rest)

end

/-- JSON whitespace (the four characters JSON.parse skips). -/
def isJsonWs (c : Char) : Bool := c = ' ' || c = '\t' || c = '\n' || c = '\r'

/-- Skip leading JSON whitespace. -/
def skipWs : List Char → List Char
  | [] => []
  | c :: t => if isJsonWs c then skipWs t else c :: t

/-- Value of one hexadecimal digit. -/
def hexVal (c : Char) : Option Nat :=
  if '0' ≤ c ∧ c ≤ '9' then some (c.toNat - '0'.toNat)
  else if 'a' ≤ c ∧ c ≤ 'f' then some (c.toNat - 'a'.toNat + 10)
  else if 'A' ≤ c ∧ c ≤ 'F' then some (c.toNat - 'A'.toNat + 10)
  else none

/-- The Unicode replacement character. -/
def replChar : Char := Char.ofNat 0xFFFD

/-- Make a character from a code point, with U+FFFD for invalid code
points (only reachable for lone surrogates from \u escapes). -/
def mkCodePoint (n : Nat) : Char :=
  if n.isValidChar then Char.ofNat n else replChar

/-- Parse the body of a JSON string after the opening quote (fuel
recursion); returns the decoded characters and the input remaining
after the closing quote.  Surrogate pairs from \u escapes are
combined. -/
def parseStringBodyFuel : Nat → List Char → Option (List Char × List Char)
  | 0, _ => none
  | _ + 1, [] => none
  | fuel + 1, c :: t =>
    if c = '"' then some ([], t)
    else if c = '\\' then
      match t with
      | '"' :: t2 => (parseStringBodyFuel fuel t2).map (fun r => ('"' :: r.1, r.2))
      | '\\' :: t2 => (parseStringBodyFuel fuel t2).map (fun r => ('\\' :: r.1, r.2))
      | '/' :: t2 => (parseStringBodyFuel fuel t2).map (fun r => ('/' :: r.1, r.2))
      | 'b' :: t2 => (parseStringBodyFuel fuel t2).map (fun r => (Char.ofNat 0x08 :: r.1, r.2))
      | 'f' :: t2 => (parseStringBodyFuel fuel t2).map (fun r => (Char.ofNat 0x0C :: r.1, r.2))
      | 'n' :: t2 => (parseStringBodyFuel fuel t2).map (fun r => ('\n' :: r.1, r.2))
      | 'r' :: t2 => (parseStringBodyFuel fuel t2).map (fun r => ('\r' :: r.1, r.2))
      | 't' :: t2 => (parseStringBodyFuel fuel t2).map (fun r => ('\t' :: r.1, r.2))
      | 'u' :: h1 :: h2 :: h3 :: h4 :: t2 =>
        match hexVal h1, hexVal h2, hexVal h3, hexVal h4 with
        | some a, some b, some d, some e =>
          let cp := a * 4096 + b * 256 + d * 16 + e
          if 0xD800 ≤ cp ∧ cp ≤ 0xDBFF then
            match t2 with
            | '\\' :: 'u' :: k1 :: k2 :: k3 :: k4 :: t3 =>
              match hexVal k1, hexVal k2, hexVal k3, hexVal k4 with
              | some a2, some b2, some d2, some e2 =>
                let cp2 := a2 * 4096 + b2 * 256 + d2 * 16 + e2
                if 0xDC00 ≤ cp2 ∧ cp2 ≤ 0xDFFF then
                  (parseStringBodyFuel fuel t3).map
                    (fun r => (mkCodePoint (0x10000 + (cp - 0xD800) * 1024 + (cp2 - 0xDC00)) :: r.1, r.2))
                else (parseStringBodyFuel fuel t2).map (fun r => (replChar :: r.1, r.2))
              | _, _, _, _ => (parseStringBodyFuel fuel t2).map (fun r => (replChar :: r.1, r.2))
            | _ => (parseStringBodyFuel fuel t2).map (fun r => (replChar :: r.1, r.2))
          else if 0xDC00 ≤ cp ∧ cp ≤ 0xDFFF then
            (parseStringBodyFuel fuel t2).map (fun r => (replChar :: r.1, r.2))
          else (parseStringBodyFuel fuel t2).map (fun r => (mkCodePoint cp :: r.1, r.2))
        | _, _, _, _ => none
      | _ => none
    else if c.toNat < 0x20 then none
    else (parseStringBodyFuel fuel t).map (fun r => (c :: r.1, r.2))

/-- Parse a JSON string body (each step consumes at least one input
character, so input length is sufficient fuel). -/
def parseStringBody (cs : List Char) : Option (List Char × List Char) :=
  parseStringBodyFuel (cs.length + 1) cs

/-- Longest leading run of decimal digits. -/
def spanDigits : List Char → List Char × List Char
  | [] => ([], [])
  | c :: t =>
    if '0' ≤ c ∧ c ≤ '9' then
      let r := spanDigits t
      (c :: r.1, r.2)
    else ([], c :: t)

/-- Numeric value of a digit list. -/
def digitsToNatAux : List Char → Nat → Nat
  | [], acc => acc
  | c :: t, acc => digitsToNatAux t (acc * 10 + (c.toNat - '0'.toNat))

/-- Parse a JSON integer literal (fraction and exponent forms are
rejected — a model restriction, see the header comment). -/
def parseNumber (cs : List Char) : Option (Json × List Char) :=
  let p := match cs with
    | '-' :: t => (true, t)
    | _ => (false, cs)
  match spanDigits p.2 with
  | ([], _) => none
  | (ds, rest) =>
    match ds with
    | '0' :: _ :: _ => none
    | _ =>
      match rest with
      | '.' :: _ => none
      | 'e' :: _ => none
      | 'E' :: _ => none
      | _ =>
        let n : Int := Int.ofNat (digitsToNatAux ds 0)
        some (.num (if p.1 then -n else n), rest)

/-- Assign a member into an object being built, JS-style: the first
occurrence of a key keeps its position, a later duplicate overwrites
the value. -/
def upsertField : List (List Char × Json) → List Char → Json → List (List Char × Json)
  | [], k, v => [(k, v)]
  | (k0, v0) :: rest, k, v =>
    if k0 = k then (k0, v) :: rest else (k0, v0) :: upsertField rest k v

mutual

/-- Parse one JSON value (fuel-indexed recursive descent, mirroring
JSON.parse up to the integer-number restriction). -/
def parseValue : Nat → List Char → Option (Json × List Char)
  | 0, _ => none
  | fuel + 1, cs =>
    match skipWs cs with
    | [] => none
    | c :: t =>
      if c = '"' then
        match parseStringBody t with
        | some r => some (.str r.1, r.2)
        | none => none
      else if c = '[' then
        match skipWs t with
        | ']' :: rest => some (.arr [], rest)
        | _ =>
          match parseElems fuel t with
          | some r => some (.arr r.1, r.2)
          | none => none
      else if c = lbrace then
        match skipWs t with
        | d :: rest =>
          if d = rbrace then some (.obj [], rest)
          else
            match parseMembers fuel t with
            | some r => some (.obj (r.1.foldl (fun acc kv => upsertField acc kv.1 kv.2) []), r.2)
            | none => none
        | [] => none
      else if c = 'n' then
        match t with
        | 'u' :: 'l' :: 'l' :: rest => some (.null, rest)
        | _ => none
      else if c = 't' then
        match t with
        | 'r' :: 'u' :: 'e' :: rest => some (.bool true, rest)
        | _ => none
      else if c = 'f' then
        match t with
        | 'a' :: 'l' :: 's' :: 'e' :: rest => some (.bool false, rest)
        | _ => none
      else if c = '-' ∨ ('0' ≤ c ∧ c ≤ '9') then parseNumber (c :: t)
      else none

/-- Parse one or more comma-separated array elements up to the closing
bracket. -/
def parseElems : Nat → List Char → Option (List Json × List Char)
  | 0, _ => none
  | fuel + 1, cs =>
    match parseValue fuel cs with
    | none => none
    | some r =>
      match skipWs r.2 with
      | ',' :: rest2 =>
        match parseElems fuel rest2 with
        | some r2 => some (r.1 :: r2.1, r2.2)
        | none => none
      | ']' :: rest2 => some ([r.1], rest2)
      | _ => none

/-- Parse one or more comma-separated object members up to the closing
brace. -/
def parseMembers : Nat → List Char → Option (List (List Char × Json) × List Char)
  | 0, _ => none
  | fuel + 1, cs =>
    match skipWs cs with
    | '"' :: t =>
      match parseStringBody t with
      | none => none
      | some rk =>
        match skipWs rk.2 with
        | ':' :: rest2 =>
          match parseValue fuel rest2 with
          | none => none
          | some rv =>
            match skipWs rv.2 with
            | ',' :: rest4 =>
              match parseMembers fuel rest4 with
              | some rm => some ((rk.1, rv.1) :: rm.1, rm.2)
              | none => none
            | d :: rest4 =>
              if d = rbrace then some ([(rk.1, rv.1)], rest4) else none
            | [] => none
        | _ => none
    | _ => none

end

/-- JSON.parse: parse a complete value, allowing surrounding
whitespace; `none` models a thrown SyntaxError. -/
def parseJson (content : List Char) : Option Json :=
  match parseValue (2 * content.length + 2) content with
  | some r => if skipWs r.2 = [] then some r.1 else none
  | none => none

/-- The whitespace set of String.prototype.trim: the ECMAScript
WhiteSpace production (TAB, VT, FF, SP, NBSP, ZWNBSP and the Zs
space separators) together with the LineTerminator production
(LF, CR, LS, PS). -/
def isJsTrimWs (c : Char) : Bool :=
  let n := c.toNat
  n = 0x09 || n = 0x0A || n = 0x0B || n = 0x0C || n = 0x0D || n = 0x20 ||
  n = 0xA0 || n = 0x1680 || (0x2000 ≤ n && n ≤ 0x200A) ||
  n = 0x2028 || n = 0x2029 || n = 0x202F || n = 0x205F || n = 0x3000 ||
  n = 0xFEFF

/-- String.prototype.trim. -/
def jsTrim (l : List Char) : List Char :=
  ((l.dropWhile isJsTrimWs).reverse.dropWhile isJsTrimWs).reverse

/-- WHATWG UTF-8 decoder state. -/
structure Utf8State where
  codepoint : Nat
  needed : Nat
  seen : Nat
  lower : Nat
  upper : Nat

/-- Initial decoder state. -/
def utf8Init : Utf8State := ⟨0, 0, 0, 0x80, 0xBF⟩

/-- The WHATWG UTF-8 decoding algorithm with replacement on error, run
to end of input (TextDecoder.decode without the stream option flushes:
a truncated trailing sequence becomes U+FFFD).  Bitwise operations are
rendered arithmetically (b AND 0x3F = b mod 64, etc.). -/
def utf8DecodeFuel : Nat → Utf8State → List Nat → List Char
  | 0, _, _ => []
  | _ + 1, st, [] => if st.needed = 0 then [] else [replChar]
  | fuel + 1, st, b :: bs =>
    if st.needed = 0 then
      if b ≤ 0x7F then Char.ofNat b :: utf8DecodeFuel fuel utf8Init bs
      else if 0xC2 ≤ b ∧ b ≤ 0xDF then utf8DecodeFuel fuel ⟨b % 32, 1, 0, 0x80, 0xBF⟩ bs
      else if 0xE0 ≤ b ∧ b ≤ 0xEF then
        utf8DecodeFuel fuel
          ⟨b % 16, 2, 0, if b = 0xE0 then 0xA0 else 0x80, if b = 0xED then 0x9F else 0xBF⟩ bs
      else if 0xF0 ≤ b ∧ b ≤ 0xF4 then
        utf8DecodeFuel fuel
          ⟨b % 8, 3, 0, if b = 0xF0 then 0x90 else 0x80, if b = 0xF4 then 0x8F else 0xBF⟩ bs
      else replChar :: utf8DecodeFuel fuel utf8Init bs
    else
      if st.lower ≤ b ∧ b ≤ st.upper then
        let cp := st.codepoint * 64 + b % 64
        if st.seen + 1 = st.needed then mkCodePoint cp :: utf8DecodeFuel fuel utf8Init bs
        else utf8DecodeFuel fuel ⟨cp, st.needed, st.seen + 1, 0x80, 0xBF⟩ bs
      else replChar :: utf8DecodeFuel fuel utf8Init (b :: bs)

/-- Strip a leading byte-order mark (TextDecoder's default
BOM-sensitive behaviour; U+FEFF decodes only from EF BB BF). -/
def bomStrip : List Char → List Char
  | [] => []
  | c :: t => if c = Char.ofNat 0xFEFF then t else c :: t

/-- One call of TextDecoder.decode(chunk) with default options, as the
transformers perform per incoming chunk. -/
def decodeUtf8 (bytes : List Nat) : List Char :=
  bomStrip (utf8DecodeFuel (2 * bytes.length + 2) utf8Init bytes)

/-- UTF-8 encoding of one code point (TextEncoder). -/
def encodeChar (c : Char) : List Nat :=
  let n := c.toNat
  if n < 0x80 then [n]
  else if n < 0x800 then [0xC0 + n / 64, 0x80 + n % 64]
  else if n < 0x10000 then [0xE0 + n / 4096, 0x80 + (n / 64) % 64, 0x80 + n % 64]
  else [0xF0 + n / 262144, 0x80 + (n / 4096) % 64, 0x80 + (n / 64) % 64, 0x80 + n % 64]

/-- TextEncoder.encode of a whole string. -/
def encodeUtf8 (t : List Char) : List Nat := t.flatMap encodeChar

/-- String.prototype.indexOf: index of the first occurrence of `pat`,
`none` for -1. -/
def firstIdxOf : List Char → List Char → Option Nat
  | [], pat => if pat = [] then some 0 else none
  | c :: t, pat =>
    if pat.isPrefixOf (c :: t) then some 0 else (firstIdxOf t pat).map (· + 1)

/-- The closing marker of the reasoning preamble (`thinkTagEnd` in the
source). -/
def thinkTagEnd : List Char := chars "</think>"

/-- The SSE event prefix the transformers look for. -/
def dataTag : List Char := chars "data: "

/-- The sentinel literal compared against the trimmed line content. -/
def doneLit : List Char := chars "[DONE]"

/-- The sentinel frame both transformers enqueue. -/
def sentinelFrame : List Char := chars "data: [DONE]\n\n"

/-- An output frame: the event prefix, the serialized JSON body and the
blank-line terminator, exactly as both transformers build frames. -/
def frameOf (j : Json) : List Char := dataTag ++ jsonStringify j ++ chars "\n\n"

/-- The terminating chunk object of the chat transformer (empty delta,
finish_reason "stop"), used both on the sentinel path and in flush. -/
def chatFinalObj (uuid : List Char) (created : Int) (model : List Char) : Json :=
  .obj [(chars "id", .str uuid), (chars "created", .num created),
        (chars "object", .str (chars "chat.completion.chunk")), (chars "model", .str model),
        (chars "choices",
         .arr [.obj [(chars "delta", .obj []), (chars "index", .num 0),
                     (chars "finish_reason", .str (chars "stop"))]])]

/-- A chat data chunk object carrying one content fragment. -/
def chatDataObj (uuid : List Char) (created : Int) (model : List Char) (content : Json) : Json :=
  .obj [(chars "id", .str uuid), (chars "created", .num created),
        (chars "object", .str (chars "chat.completion.chunk")), (chars "model", .str model),
        (chars "choices",
         .arr [.obj [(chars "delta",
                      .obj [(chars "role", .str (chars "assistant")), (chars "content", content)]),
                     (chars "index", .num 0), (chars "finish_reason", .null)]])]

/-- Second half of the chat fragment fallback:
`data.response?.content || JSON.stringify(data.response)`. -/
def actualContentFallback (response : Json) : Json :=
  match getProp response (chars "content") with
  | some cv => if truthy cv then cv else .str (jsonStringify response)
  | none => .str (jsonStringify response)

/-- The chat fragment extraction of source lines 222-224:
`typeof data.response === 'string' ? data.response :
 data.response?.text || data.response?.content ||
 JSON.stringify(data.response)` (undefined and falsy both fall
through `||`). -/
def actualContent (response : Json) : Json :=
  match response with
  | .str _ => response
  | _ =>
    match getProp response (chars "text") with
    | some t => if truthy t then t else actualContentFallback response
    | none => actualContentFallback response

/-- The captured mutable state of the chat transformer closure. -/
structure ChatState where
  buffer : List Char
  pastThinkTag : Bool
  isFinished : Bool
deriving DecidableEq

/-- Chat state at stream start. -/
def chatInit : ChatState := ⟨[], false, false⟩

/-- The chat transformer's per-chunk line loop (source lines 196-243):
repeatedly pull the first newline-terminated line off the buffer;
sentinel lines finish the session after enqueueing the terminating and
sentinel frames (the early `return` leaves the rest of the buffer
unprocessed); `data: ` lines with a parsable body and a truthy
`response` enqueue one data frame; all other lines are skipped (a JSON
parse failure is caught and logged).  Returns the remaining buffer,
the finished flag and the enqueued frames. -/
def chatProcessLinesFuel (uuid : List Char) (created : Int) (model : List Char) :
    Nat → List Char → List Char × Bool × List (List Char)
  | 0, buf => (buf, false, [])
  | fuel + 1, buf =>
    match firstIdxOf buf (chars "\n") with
    | none => (buf, false, [])
    | some idx =>
      let line := buf.take (idx + 1)
      let rest := buf.drop (idx + 1)
      if dataTag.isPrefixOf line then
        let content := line.drop dataTag.length
        if jsTrim content = doneLit then
          (rest, true, [frameOf (chatFinalObj uuid created model), sentinelFrame])
        else
          match parseJson content with
          | none => chatProcessLinesFuel uuid created model fuel rest
          | some data =>
            match getProp data (chars "response") with
            | some r =>
              if truthy r then
                let res := chatProcessLinesFuel uuid created model fuel rest
                (res.1, res.2.1,
                 frameOf (chatDataObj uuid created model (actualContent r)) :: res.2.2)
              else chatProcessLinesFuel uuid created model fuel rest
            | none => chatProcessLinesFuel uuid created model fuel rest
      else chatProcessLinesFuel uuid created model fuel rest

/-- The chat line loop with sufficient fuel (each iteration removes at
least one character from the buffer). -/
def chatProcessLines (uuid : List Char) (created : Int) (model : List Char)
    (buf : List Char) : List Char × Bool × List (List Char) :=
  chatProcessLinesFuel uuid created model (buf.length + 1) buf

/-- One `transform(chunk, controller)` call of the chat transformer on
already-decoded text (source lines 181-243): ignore everything once
finished; append the decoded chunk to the buffer; before the marker is
found, search for it, buffering on absence and dropping through it on
detection; then run the line loop. -/
def chatTransformText (uuid : List Char) (created : Int) (model : List Char)
    (s : ChatState) (t : List Char) : ChatState × List (List Char) :=
  if s.isFinished then (s, [])
  else
    let buffer := s.buffer ++ t
    if s.pastThinkTag then
      let res := chatProcessLines uuid created model buffer
      (⟨res.1, true, res.2.1⟩, res.2.2)
    else
      match firstIdxOf buffer thinkTagEnd with
      | none => (⟨buffer, false, false⟩, [])
      | some i =>
        let res := chatProcessLines uuid created model (buffer.drop (i + thinkTagEnd.length))
        (⟨res.1, true, res.2.1⟩, res.2.2)

/-- One `transform` call of the chat transformer on a byte chunk: the
chunk is decoded by a fresh-state TextDecoder.decode call (the source
omits the stream option, so no byte is ever carried over). -/
def chatTransform (uuid : List Char) (created : Int) (model : List Char)
    (s : ChatState) (chunk : List Nat) : ChatState × List (List Char) :=
  chatTransformText uuid created model s (decodeUtf8 chunk)

/-- The chat transformer's `flush(controller)` callback (source lines
246-258): when not finished, enqueue the terminating frame and the
sentinel frame.  It does not modify the state. -/
def chatFlush (uuid : List Char) (created : Int) (model : List Char)
    (s : ChatState) : List (List Char) :=
  if s.isFinished then []
  else [frameOf (chatFinalObj uuid created model), sentinelFrame]

/-- Feed a sequence of decoded text chunks through successive chat
transform calls, collecting all enqueued frames. -/
def chatFeedText (uuid : List Char) (created : Int) (model : List Char) :
    ChatState → List (List Char) → ChatState × List (List Char)
  | s, [] => (s, [])
  | s, t :: ts =>
    let r1 := chatTransformText uuid created model s t
    let r2 := chatFeedText uuid created model r1.1 ts
    (r2.1, r1.2 ++ r2.2)

/-- A chat session from a given state: the transform calls for each
text chunk followed by the single end-of-input flush. -/
def chatRunTextFrom (uuid : List Char) (created : Int) (model : List Char)
    (s : ChatState) (texts : List (List Char)) : List (List Char) :=
  let r := chatFeedText uuid created model s texts
  r.2 ++ chatFlush uuid created model r.1

/-- A complete chat session over decoded text chunks. -/
def chatRunText (uuid : List Char) (created : Int) (model : List Char)
    (texts : List (List Char)) : List (List Char) :=
  chatRunTextFrom uuid created model chatInit texts

/-- A complete chat session over raw byte chunks. -/
def chatRun (uuid : List Char) (created : Int) (model : List Char)
    (chunks : List (List Nat)) : List (List Char) :=
  chatRunText uuid created model (chunks.map decodeUtf8)

/-- The captured mutable state of the completion transformer closure
(note: no finished flag exists in the source). -/
structure CompletionState where
  buffer : List Char
  pastThinkTag : Bool
deriving DecidableEq

/-- Completion state at stream start. -/
def completionInit : CompletionState := ⟨[], false⟩

/-- The choice fields of a completion chunk: `text: data.response`
first, omitted by JSON.stringify when `data.response` is undefined,
then index, logprobs and finish_reason. -/
def completionChoiceFields (resp : Option Json) : List (List Char × Json) :=
  (match resp with
   | some v => [(chars "text", v)]
   | none => []) ++
  [(chars "index", .num 0), (chars "logprobs", .null), (chars "finish_reason", .null)]

/-- A completion chunk object (source lines 307-318). -/
def completionDataObj (uuid : List Char) (created : Int) (model : List Char)
    (resp : Option Json) : Json :=
  .obj [(chars "id", .str uuid), (chars "created", .num created),
        (chars "object", .str (chars "text_completion")), (chars "model", .str model),
        (chars "choices", .arr [.obj (completionChoiceFields resp)])]

/-- The completion transformer's per-chunk line loop (source lines
291-324).  On the sentinel line only the sentinel frame is enqueued
and the loop exits (no flag is set).  A parsed `null` body models the
TypeError thrown by `data.response`, caught like a parse failure, so
the line is skipped; any other parsed body emits a frame
unconditionally (there is no truthiness check in completion mode). -/
def completionProcessLinesFuel (uuid : List Char) (created : Int) (model : List Char) :
    Nat → List Char → List Char × List (List Char)
  | 0, buf => (buf, [])
  | fuel + 1, buf =>
    match firstIdxOf buf (chars "\n") with
    | none => (buf, [])
    | some idx =>
      let line := buf.take (idx + 1)
      let rest := buf.drop (idx + 1)
      if dataTag.isPrefixOf line then
        let content := line.drop dataTag.length
        if jsTrim content = doneLit then (rest, [sentinelFrame])
        else
          match parseJson content with
          | none => completionProcessLinesFuel uuid created model fuel rest
          | some data =>
            match data with
            | .null => completionProcessLinesFuel uuid created model fuel rest
            | _ =>
              let res := completionProcessLinesFuel uuid created model fuel rest
              (res.1,
               frameOf (completionDataObj uuid created model (getProp data (chars "response")))
                 :: res.2)
      else completionProcessLinesFuel uuid created model fuel rest

/-- The completion line loop with sufficient fuel. -/
def completionProcessLines (uuid : List Char) (created : Int) (model : List Char)
    (buf : List Char) : List Char × List (List Char) :=
  completionProcessLinesFuel uuid created model (buf.length + 1) buf

/-- One `transform` call of the completion transformer on decoded text
(source lines 278-325): identical marker handling to chat mode, but no
finished guard exists. -/
def completionTransformText (uuid : List Char) (created : Int) (model : List Char)
    (s : CompletionState) (t : List Char) : CompletionState × List (List Char) :=
  let buffer := s.buffer ++ t
  if s.pastThinkTag then
    let res := completionProcessLines uuid created model buffer
    (⟨res.1, true⟩, res.2)
  else
    match firstIdxOf buffer thinkTagEnd with
    | none => (⟨buffer, false⟩, [])
    | some i =>
      let res := completionProcessLines uuid created model (buffer.drop (i + thinkTagEnd.length))
      (⟨res.1, true⟩, res.2)

/-- One completion `transform` call on a byte chunk. -/
def completionTransform (uuid : List Char) (created : Int) (model : List Char)
    (s : CompletionState) (chunk : List Nat) : CompletionState × List (List Char) :=
  completionTransformText uuid created model s (decodeUtf8 chunk)

/-- The completion transformer declares no flush callback, so end of
input enqueues nothing. -/
def completionFlush (s : CompletionState) : List (List Char) := []

/-- Feed decoded text chunks through successive completion transform
calls. -/
def completionFeedText (uuid : List Char) (created : Int) (model : List Char) :
    CompletionState → List (List Char) → CompletionState × List (List Char)
  | s, [] => (s, [])
  | s, t :: ts =>
    let r1 := completionTransformText uuid created model s t
    let r2 := completionFeedText uuid created model r1.1 ts
    (r2.1, r1.2 ++ r2.2)

/-- A completion session from a given state (the absent flush
contributes nothing at end of input). -/
def completionRunTextFrom (uuid : List Char) (created : Int) (model : List Char)
    (s : CompletionState) (texts : List (List Char)) : List (List Char) :=
  let r := completionFeedText uuid created model s texts
  r.2 ++ completionFlush r.1

/-- A complete completion session over decoded text chunks. -/
def completionRunText (uuid : List Char) (created : Int) (model : List Char)
    (texts : List (List Char)) : List (List Char) :=
  completionRunTextFrom uuid created model completionInit texts

/-- A complete completion session over raw byte chunks. -/
def completionRun (uuid : List Char) (created : Int) (model : List Char)
    (chunks : List (List Nat)) : List (List Char) :=
  completionRunText uuid created model (chunks.map decodeUtf8)

/-- Whether a JSON value is a string. -/
def isStringJ : Json → Bool
  | .str _ => true
  | _ => false

/-- Whether a JSON value is an object. -/
def isObjJ : Json → Bool
  | .obj _ => true
  | _ => false

/-- Modelled from the spec: the chat fragment-extraction fallback chain
as §4.4 words it — "if the carried payload field is itself a string,
use it directly; otherwise, if it is an object, check for a text- or
content-bearing sub-field, defaulting to a stringified representation
of the whole object" (a sub-field "bears" text when it is truthy).
The spec does not describe payloads that are neither strings nor
objects; this definition is only compared with the code on the spec's
domain. -/
def specFragment (response : Json) : Json :=
  match response with
  | .str _ => response
  | .obj fields =>
    match lookupField fields (chars "text") with
    | some t =>
      if truthy t then t
      else
        match lookupField fields (chars "content") with
        | some cv => if truthy cv then cv else .str (jsonStringify response)
        | none => .str (jsonStringify response)
    | none =>
      match lookupField fields (chars "content") with
      | some cv => if truthy cv then cv else .str (jsonStringify response)
      | none => .str (jsonStringify response)
  | _ => .str (jsonStringify response)

/-- Drop the first `n` decoded characters from a chunked text stream,
preserving the remaining chunk boundaries. -/
def dropTexts : Nat → List (List Char) → List (List Char)
  | _, [] => []
  | n, t :: ts => if n ≤ t.length then t.drop n :: ts else dropTexts (n - t.length) ts

/-! ## Auxiliary lemmas about indexOf, take and drop -/

theorem drop_append_le {n : Nat} (a b : List Char) (h : n ≤ a.length) :
    (a ++ b).drop n = a.drop n ++ b := by
  rw [List.drop_append_eq_append_drop]
  simp [Nat.sub_eq_zero_of_le h]

theorem drop_append_ge {n : Nat} (a b : List Char) (h : a.length ≤ n) :
    (a ++ b).drop n = b.drop (n - a.length) := by
  rw [List.drop_append_eq_append_drop, List.drop_eq_nil_of_le h]
  simp

theorem prefix_of_append_of_length_le {pat x y : List Char}
    (h : pat <+: x ++ y) (hl : pat.length ≤ x.length) : pat <+: x := by
  have hx := List.prefix_iff_eq_take.mp h
  rw [List.take_append_eq_append_take, Nat.sub_eq_zero_of_le hl, List.take_zero,
    List.append_nil] at hx
  rw [hx]
  exact List.take_prefix _ _

theorem firstIdxOf_nil_pat (l : List Char) : firstIdxOf l [] = some 0 := by
  cases l with
  | nil => rfl
  | cons c t => simp [firstIdxOf, List.isPrefixOf]

theorem firstIdxOf_eq_some_iff (l pat : List Char) (i : Nat) :
    firstIdxOf l pat = some i ↔
      (pat <+: l.drop i ∧ ∀ k, k < i → ¬ pat <+: l.drop k) := by
  induction l generalizing i with
  | nil =>
    by_cases hp : pat = []
    · subst hp
      simp only [firstIdxOf, if_pos rfl, List.drop_nil]
      constructor
      · intro h
        have hi : i = 0 := by injection h with h; omega
        subst hi
        exact ⟨List.nil_prefix, fun k hk => absurd hk (by omega)⟩
      · rintro ⟨h1, h2⟩
        have hi : i = 0 := by
          by_contra hne
          exact h2 0 (Nat.pos_of_ne_zero hne) List.nil_prefix
        subst hi
        rfl
    · simp only [firstIdxOf, if_neg hp, List.drop_nil]
      simp [List.prefix_nil, hp]
  | cons c t ih =>
    simp only [firstIdxOf]
    by_cases hp : pat.isPrefixOf (c :: t)
    · rw [if_pos hp]
      have hp' : pat <+: c :: t := List.isPrefixOf_iff_prefix.mp hp
      constructor
      · intro h
        have hi : i = 0 := by injection h with h; omega
        subst hi
        exact ⟨by simpa using hp', fun k hk => absurd hk (by omega)⟩
      · rintro ⟨h1, h2⟩
        rcases Nat.eq_zero_or_pos i with hi | hi
        · subst hi; rfl
        · exact absurd (by simpa using hp') (h2 0 hi)
    · rw [if_neg hp]
      have hp' : ¬ pat <+: c :: t := fun hc => hp (List.isPrefixOf_iff_prefix.mpr hc)
      cases i with
      | zero =>
        constructor
        · intro h
          rcases Option.map_eq_some'.mp h with ⟨j, _, hj2⟩
          omega
        · rintro ⟨h1, _⟩
          exact absurd (by simpa using h1) hp'
      | succ j =>
        have lhs_iff : (firstIdxOf t pat).map (· + 1) = some (j + 1) ↔
            firstIdxOf t pat = some j := by
          cases h : firstIdxOf t pat with
          | none => simp
          | some a => simp [h]
        rw [lhs_iff, ih j]
        constructor
        · rintro ⟨h1, h2⟩
          refine ⟨by simpa using h1, ?_⟩
          intro k hk
          cases k with
          | zero => simpa using hp'
          | succ k2 => exact fun hc => h2 k2 (by omega) (by simpa using hc)
        · rintro ⟨h1, h2⟩
          exact ⟨by simpa using h1, fun k hk hc => h2 (k + 1) (by omega) (by simpa using hc)⟩

theorem firstIdxOf_eq_none_iff (l pat : List Char) (hp : pat ≠ []) :
    firstIdxOf l pat = none ↔ ∀ k, ¬ pat <+: l.drop k := by
  induction l with
  | nil => simp [firstIdxOf, hp, List.prefix_nil]
  | cons c t ih =>
    simp only [firstIdxOf]
    by_cases hpre : pat.isPrefixOf (c :: t)
    · rw [if_pos hpre]
      constructor
      · intro h; cases h
      · intro hall
        exact absurd (by simpa using List.isPrefixOf_iff_prefix.mp hpre) (hall 0)
    · rw [if_neg hpre]
      have hmap : (firstIdxOf t pat).map (· + 1) = none ↔ firstIdxOf t pat = none := by
        cases h : firstIdxOf t pat <;> simp [h]
      rw [hmap, ih]
      constructor
      · intro h k
        cases k with
        | zero =>
          simpa using fun hc => hpre (List.isPrefixOf_iff_prefix.mpr hc)
        | succ k2 => simpa using h k2
      · intro h k
        exact fun hc => h (k + 1) (by simpa using hc)

theorem firstIdxOf_some_prefix {l pat : List Char} {i : Nat}
    (h : firstIdxOf l pat = some i) : pat <+: l.drop i :=
  ((firstIdxOf_eq_some_iff l pat i).mp h).1

theorem firstIdxOf_some_lt {l pat : List Char} {i : Nat} (hp : pat ≠ [])
    (h : firstIdxOf l pat = some i) : i < l.length := by
  have h1 := firstIdxOf_some_prefix h
  have h2 : l.drop i ≠ [] := by
    intro hnil
    rw [hnil, List.prefix_nil] at h1
    exact hp h1
  by_contra hc
  push_neg at hc
  exact h2 (List.drop_eq_nil_of_le hc)

theorem firstIdxOf_append_some {a pat : List Char} (b : List Char) {i : Nat}
    (h : firstIdxOf a pat = some i) : firstIdxOf (a ++ b) pat = some i := by
  rcases (firstIdxOf_eq_some_iff a pat i).mp h with ⟨h1, h2⟩
  have hi : i ≤ a.length := by
    by_cases hp : pat = []
    · subst hp
      rw [firstIdxOf_nil_pat] at h
      injection h with h
      omega
    · exact le_of_lt (firstIdxOf_some_lt hp h)
  apply (firstIdxOf_eq_some_iff (a ++ b) pat i).mpr
  constructor
  · rw [drop_append_le a b hi]
    exact h1.trans (List.prefix_append _ b)
  · intro k hk hc
    have hk_le : k ≤ a.length := by omega
    rw [drop_append_le a b hk_le] at hc
    have hplen : pat.length ≤ (a.drop k).length := by
      have := h1.length_le
      simp only [List.length_drop] at this ⊢
      omega
    exact h2 k hk (prefix_of_append_of_length_le hc hplen)

theorem firstIdxOf_append_none {a b pat : List Char} (hp : pat ≠ [])
    (h : firstIdxOf (a ++ b) pat = none) : firstIdxOf a pat = none := by
  rw [firstIdxOf_eq_none_iff _ _ hp] at h ⊢
  intro k hc
  by_cases hk : k ≤ a.length
  · exact h k (by rw [drop_append_le a b hk]; exact hc.trans (List.prefix_append _ b))
  · push_neg at hk
    rw [List.drop_eq_nil_of_le (le_of_lt hk), List.prefix_nil] at hc
    exact hp hc

theorem firstIdxOf_newline (l1 l2 : List Char) (h : '\n' ∉ l1) :
    firstIdxOf (l1 ++ '\n' :: l2) (chars "\n") = some l1.length := by
  apply (firstIdxOf_eq_some_iff _ _ _).mpr
  constructor
  · rw [List.drop_left]
    exact ⟨l2, rfl⟩
  · intro k hk hc
    rw [drop_append_le l1 ('\n' :: l2) (le_of_lt hk)] at hc
    have hlen1 : (chars "\n").length ≤ (l1.drop k).length := by
      have h1 : (chars "\n").length = 1 := rfl
      rw [h1, List.length_drop]
      omega
    have hc2 : chars "\n" <+: l1.drop k := prefix_of_append_of_length_le hc hlen1
    rcases hc2 with ⟨t2, ht2⟩
    have hx : chars "\n" = ['\n'] := rfl
    rw [hx] at ht2
    have hmem : '\n' ∈ l1.drop k := by
      rw [← ht2]
      simp
    exact h (List.mem_of_mem_drop hmem)

theorem take_line (l1 l2 : List Char) :
    (l1 ++ '\n' :: l2).take (l1.length + 1) = l1 ++ ['\n'] := by
  induction l1 with
  | nil => simp
  | cons c t ih => simp [ih]

theorem drop_line (l1 l2 : List Char) :
    (l1 ++ '\n' :: l2).drop (l1.length + 1) = l2 := by
  induction l1 with
  | nil => simp
  | cons c t ih => simp [ih]

theorem thinkTagEnd_ne_nil : thinkTagEnd ≠ [] := by decide

/-! ## Fuel irrelevance and single-line stepping of the line loops -/

theorem chatPLF_irrel (u : List Char) (c : Int) (m : List Char) :
    ∀ f g buf, buf.length < f → buf.length < g →
      chatProcessLinesFuel u c m f buf = chatProcessLinesFuel u c m g buf := by
  intro f
  induction f with
  | zero => intro g buf hf _; exact absurd hf (Nat.not_lt_zero _)
  | succ f ih =>
    intro g buf hf hg
    cases g with
    | zero => exact absurd hg (Nat.not_lt_zero _)
    | succ g =>
      simp only [chatProcessLinesFuel]
      cases hidx : firstIdxOf buf (chars "\n") with
      | none => rfl
      | some idx =>
        have hlt : idx < buf.length := firstIdxOf_some_lt (by decide) hidx
        have hrec : chatProcessLinesFuel u c m f (buf.drop (idx + 1)) =
            chatProcessLinesFuel u c m g (buf.drop (idx + 1)) := by
          apply ih
          · rw [List.length_drop]; omega
          · rw [List.length_drop]; omega
        simp only [hidx, hrec]

theorem chatPL_cons (u : List Char) (c : Int) (m : List Char) (l1 rest : List Char)
    (h : '\n' ∉ l1) :
    chatProcessLines u c m (l1 ++ '\n' :: rest) =
      (if dataTag.isPrefixOf (l1 ++ ['\n']) then
        if jsTrim ((l1 ++ ['\n']).drop dataTag.length) = doneLit then
          (rest, true, [frameOf (chatFinalObj u c m), sentinelFrame])
        else
          match parseJson ((l1 ++ ['\n']).drop dataTag.length) with
          | none => chatProcessLines u c m rest
          | some data =>
            match getProp data (chars "response") with
            | some r =>
              if truthy r then
                ((chatProcessLines u c m rest).1, (chatProcessLines u c m rest).2.1,
                 frameOf (chatDataObj u c m (actualContent r)) :: (chatProcessLines u c m rest).2.2)
              else chatProcessLines u c m rest
            | none => chatProcessLines u c m rest
      else chatProcessLines u c m rest) := by
  unfold chatProcessLines
  have hrec : chatProcessLinesFuel u c m ((l1 ++ '\n' :: rest).length) rest =
      chatProcessLinesFuel u c m (rest.length + 1) rest := by
    apply chatPLF_irrel
    · simp only [List.length_append, List.length_cons]
      omega
    · omega
  simp only [chatProcessLinesFuel, firstIdxOf_newline l1 rest h, take_line, drop_line, hrec]

theorem completionPLF_irrel (u : List Char) (c : Int) (m : List Char) :
    ∀ f g buf, buf.length < f → buf.length < g →
      completionProcessLinesFuel u c m f buf = completionProcessLinesFuel u c m g buf := by
  intro f
  induction f with
  | zero => intro g buf hf _; exact absurd hf (Nat.not_lt_zero _)
  | succ f ih =>
    intro g buf hf hg
    cases g with
    | zero => exact absurd hg (Nat.not_lt_zero _)
    | succ g =>
      simp only [completionProcessLinesFuel]
      cases hidx : firstIdxOf buf (chars "\n") with
      | none => rfl
      | some idx =>
        have hlt : idx < buf.length := firstIdxOf_some_lt (by decide) hidx
        have hrec : completionProcessLinesFuel u c m f (buf.drop (idx + 1)) =
            completionProcessLinesFuel u c m g (buf.drop (idx + 1)) := by
          apply ih
          · rw [List.length_drop]; omega
          · rw [List.length_drop]; omega
        simp only [hidx, hrec]

theorem completionPL_cons (u : List Char) (c : Int) (m : List Char) (l1 rest : List Char)
    (h : '\n' ∉ l1) :
    completionProcessLines u c m (l1 ++ '\n' :: rest) =
      (if dataTag.isPrefixOf (l1 ++ ['\n']) then
        if jsTrim ((l1 ++ ['\n']).drop dataTag.length) = doneLit then (rest, [sentinelFrame])
        else
          match parseJson ((l1 ++ ['\n']).drop dataTag.length) with
          | none => completionProcessLines u c m rest
          | some data =>
            match data with
            | .null => completionProcessLines u c m rest
            | _ =>
              ((completionProcessLines u c m rest).1,
               frameOf (completionDataObj u c m (getProp data (chars "response")))
                 :: (completionProcessLines u c m rest).2)
      else completionProcessLines u c m rest) := by
  unfold completionProcessLines
  have hrec : completionProcessLinesFuel u c m ((l1 ++ '\n' :: rest).length) rest =
      completionProcessLinesFuel u c m (rest.length + 1) rest := by
    apply completionPLF_irrel
    · simp only [List.length_append, List.length_cons]
      omega
    · omega
  simp only [completionProcessLinesFuel, firstIdxOf_newline l1 rest h, take_line, drop_line,
    hrec]

theorem completionPL_done (u : List Char) (c : Int) (m : List Char) (rest : List Char) :
    completionProcessLines u c m (chars "data: [DONE]" ++ '\n' :: rest) =
      (rest, [sentinelFrame]) := by
  rw [completionPL_cons u c m (chars "data: [DONE]") rest (by decide)]
  have hc1 : dataTag.isPrefixOf (chars "data: [DONE]" ++ ['\n']) = true := rfl
  have hc2 : jsTrim ((chars "data: [DONE]" ++ ['\n']).drop dataTag.length) = doneLit := rfl
  rw [if_pos hc1, if_pos hc2]

/-! ## The three emitted frame shapes are pairwise distinct -/

theorem natToCharsFuel_len (f : Nat) :
    ∀ n acc, acc.length ≤ (natToCharsFuel f n acc).length := by
  induction f with
  | zero => intro n acc; simp [natToCharsFuel]
  | succ f ih =>
    intro n acc
    simp only [natToCharsFuel]
    by_cases hn : n = 0
    · simp [hn]
    · rw [if_neg hn]
      calc acc.length ≤ (Nat.digitChar (n % 10) :: acc).length := by simp
        _ ≤ _ := ih (n / 10) _

theorem natToChars_len_pos (n : Nat) : 1 ≤ (natToChars n).length := by
  unfold natToChars
  by_cases hn : n = 0
  · simp [hn]
  · rw [if_neg hn]
    have h1 : natToCharsFuel (n + 1) n [] =
        natToCharsFuel n (n / 10) [Nat.digitChar (n % 10)] := by
      simp [natToCharsFuel, hn]
    rw [h1]
    have h2 := natToCharsFuel_len n (n / 10) [Nat.digitChar (n % 10)]
    simpa using h2

theorem intToChars_len_pos (i : Int) : 1 ≤ (intToChars i).length := by
  cases i with
  | ofNat n => exact natToChars_len_pos n
  | negSucc m => simp [intToChars]

theorem stringify_len_pos (j : Json) : 1 ≤ (jsonStringify j).length := by
  cases j with
  | null => decide
  | bool b => cases b <;> decide
  | num n => simpa [jsonStringify] using intToChars_len_pos n
  | str s => simp [jsonStringify, quoteStr]
  | arr xs => simp [jsonStringify]
  | obj fs => simp [jsonStringify]

theorem frame_data_ne_final (u : List Char) (c : Int) (m : List Char) (j : Json) :
    frameOf (chatDataObj u c m j) ≠ frameOf (chatFinalObj u c m) := by
  intro hEq
  have hLen := congrArg List.length hEq
  have hj := stringify_len_pos j
  simp only [frameOf, chatDataObj, chatFinalObj, jsonStringify, stringifyFields,
    stringifyElems, List.length_append, List.length_cons, List.length_nil,
    show (quoteStr (chars "id")).length = 4 from rfl,
    show (quoteStr (chars "created")).length = 9 from rfl,
    show (quoteStr (chars "object")).length = 8 from rfl,
    show (quoteStr (chars "chat.completion.chunk")).length = 23 from rfl,
    show (quoteStr (chars "model")).length = 7 from rfl,
    show (quoteStr (chars "choices")).length = 9 from rfl,
    show (quoteStr (chars "delta")).length = 7 from rfl,
    show (quoteStr (chars "role")).length = 6 from rfl,
    show (quoteStr (chars "assistant")).length = 11 from rfl,
    show (quoteStr (chars "content")).length = 9 from rfl,
    show (quoteStr (chars "index")).length = 7 from rfl,
    show (quoteStr (chars "finish_reason")).length = 15 from rfl,
    show (quoteStr (chars "stop")).length = 6 from rfl,
    show (intToChars 0).length = 1 from rfl,
    show (chars "null").length = 4 from rfl,
    show (chars "\n\n").length = 2 from rfl,
    show dataTag.length = 6 from rfl] at hLen
  omega

theorem frame_data_ne_sentinel (u : List Char) (c : Int) (m : List Char) (j : Json) :
    frameOf (chatDataObj u c m j) ≠ sentinelFrame := by
  intro hEq
  have hLen := congrArg List.length hEq
  have hj := stringify_len_pos j
  simp only [frameOf, chatDataObj, jsonStringify, stringifyFields,
    stringifyElems, List.length_append, List.length_cons, List.length_nil,
    show (quoteStr (chars "id")).length = 4 from rfl,
    show (quoteStr (chars "created")).length = 9 from rfl,
    show (quoteStr (chars "object")).length = 8 from rfl,
    show (quoteStr (chars "chat.completion.chunk")).length = 23 from rfl,
    show (quoteStr (chars "model")).length = 7 from rfl,
    show (quoteStr (chars "choices")).length = 9 from rfl,
    show (quoteStr (chars "delta")).length = 7 from rfl,
    show (quoteStr (chars "role")).length = 6 from rfl,
    show (quoteStr (chars "assistant")).length = 11 from rfl,
    show (quoteStr (chars "content")).length = 9 from rfl,
    show (quoteStr (chars "index")).length = 7 from rfl,
    show (quoteStr (chars "finish_reason")).length = 15 from rfl,
    show (intToChars 0).length = 1 from rfl,
    show (chars "null").length = 4 from rfl,
    show (chars "\n\n").length = 2 from rfl,
    show dataTag.length = 6 from rfl,
    show sentinelFrame.length = 14 from rfl] at hLen
  omega

theorem frame_final_ne_sentinel (u : List Char) (c : Int) (m : List Char) :
    frameOf (chatFinalObj u c m) ≠ sentinelFrame := by
  intro hEq
  have hLen := congrArg List.length hEq
  simp only [frameOf, chatFinalObj, jsonStringify, stringifyFields,
    stringifyElems, List.length_append, List.length_cons, List.length_nil,
    show (quoteStr (chars "id")).length = 4 from rfl,
    show (quoteStr (chars "created")).length = 9 from rfl,
    show (quoteStr (chars "object")).length = 8 from rfl,
    show (quoteStr (chars "chat.completion.chunk")).length = 23 from rfl,
    show (quoteStr (chars "model")).length = 7 from rfl,
    show (quoteStr (chars "choices")).length = 9 from rfl,
    show (quoteStr (chars "delta")).length = 7 from rfl,
    show (quoteStr (chars "index")).length = 7 from rfl,
    show (quoteStr (chars "finish_reason")).length = 15 from rfl,
    show (quoteStr (chars "stop")).length = 6 from rfl,
    show (intToChars 0).length = 1 from rfl,
    show (chars "\n\n").length = 2 from rfl,
    show dataTag.length = 6 from rfl,
    show sentinelFrame.length = 14 from rfl] at hLen
  omega

/-! ## Exactly-once counting of the terminating and sentinel frames (chat) -/

theorem count_cons_ne {x b : List Char} (l : List (List Char)) (h : b ≠ x) :
    List.count x (b :: l) = List.count x l := by
  rw [List.count_cons]
  simp [h]

theorem count_cons_self_frame (x : List Char) (l : List (List Char)) :
    List.count x (x :: l) = List.count x l + 1 := by
  rw [List.count_cons]
  simp

theorem chatPLF_invariant (u : List Char) (c : Int) (m : List Char) :
    ∀ f buf,
      ((chatProcessLinesFuel u c m f buf).2.1 = true →
        List.count (frameOf (chatFinalObj u c m)) (chatProcessLinesFuel u c m f buf).2.2 = 1 ∧
        List.count sentinelFrame (chatProcessLinesFuel u c m f buf).2.2 = 1) ∧
      ((chatProcessLinesFuel u c m f buf).2.1 = false →
        List.count (frameOf (chatFinalObj u c m)) (chatProcessLinesFuel u c m f buf).2.2 = 0 ∧
        List.count sentinelFrame (chatProcessLinesFuel u c m f buf).2.2 = 0) := by
  intro f
  induction f with
  | zero => intro buf; simp [chatProcessLinesFuel]
  | succ f ih =>
    intro buf
    simp only [chatProcessLinesFuel]
    cases hidx : firstIdxOf buf (chars "\n") with
    | none => simp
    | some idx =>
      dsimp only
      by_cases hpre : dataTag.isPrefixOf (buf.take (idx + 1)) = true
      · rw [if_pos hpre]
        by_cases hdone : jsTrim ((buf.take (idx + 1)).drop dataTag.length) = doneLit
        · rw [if_pos hdone]
          dsimp only
          constructor
          · intro _
            constructor
            · rw [count_cons_self_frame,
                count_cons_ne _ (Ne.symm (frame_final_ne_sentinel u c m))]
              simp
            · rw [count_cons_ne _ (frame_final_ne_sentinel u c m), count_cons_self_frame]
              simp
          · intro hff
            exact absurd hff (by decide)
        · rw [if_neg hdone]
          cases hpj : parseJson ((buf.take (idx + 1)).drop dataTag.length) with
          | none => exact ih _
          | some data =>
            dsimp only
            cases hgp : getProp data (chars "response") with
            | none => exact ih _
            | some r =>
              dsimp only
              by_cases htr : truthy r = true
              · rw [if_pos htr]
                dsimp only
                have ihr := ih (buf.drop (idx + 1))
                constructor
                · intro hfin
                  have h2 := ihr.1 hfin
                  constructor
                  · rw [count_cons_ne _ (frame_data_ne_final u c m (actualContent r))]
                    exact h2.1
                  · rw [count_cons_ne _ (frame_data_ne_sentinel u c m (actualContent r))]
                    exact h2.2
                · intro hfin
                  have h2 := ihr.2 hfin
                  constructor
                  · rw [count_cons_ne _ (frame_data_ne_final u c m (actualContent r))]
                    exact h2.1
                  · rw [count_cons_ne _ (frame_data_ne_sentinel u c m (actualContent r))]
                    exact h2.2
              · rw [if_neg htr]
                exact ih _
      · rw [if_neg hpre]
        exact ih _

theorem chatTransformText_finished (u : List Char) (c : Int) (m : List Char)
    (s : ChatState) (t : List Char) (hs : s.isFinished = true) :
    chatTransformText u c m s t = (s, []) := by
  simp [chatTransformText, hs]

theorem chatTransformText_invariant (u : List Char) (c : Int) (m : List Char)
    (s : ChatState) (t : List Char) (hs : s.isFinished = false) :
    ((chatTransformText u c m s t).1.isFinished = true →
       List.count (frameOf (chatFinalObj u c m)) (chatTransformText u c m s t).2 = 1 ∧
       List.count sentinelFrame (chatTransformText u c m s t).2 = 1) ∧
    ((chatTransformText u c m s t).1.isFinished = false →
       List.count (frameOf (chatFinalObj u c m)) (chatTransformText u c m s t).2 = 0 ∧
       List.count sentinelFrame (chatTransformText u c m s t).2 = 0) := by
  unfold chatTransformText
  rw [hs]
  simp only [Bool.false_eq_true, if_false]
  by_cases hp : s.pastThinkTag = true
  · rw [if_pos hp]
    exact chatPLF_invariant u c m _ _
  · rw [if_neg hp]
    cases hm : firstIdxOf (s.buffer ++ t) thinkTagEnd with
    | none => simp
    | some i => exact chatPLF_invariant u c m _ _

theorem chatFeedText_finished (u : List Char) (c : Int) (m : List Char) :
    ∀ texts (s : ChatState), s.isFinished = true →
      chatFeedText u c m s texts = (s, []) := by
  intro texts
  induction texts with
  | nil => intro s _; rfl
  | cons t ts ih =>
    intro s hs
    simp only [chatFeedText, chatTransformText_finished u c m s t hs]
    rw [ih s hs]
    rfl

theorem chatFeedText_invariant (u : List Char) (c : Int) (m : List Char) :
    ∀ texts (s : ChatState), s.isFinished = false →
      ((chatFeedText u c m s texts).1.isFinished = true →
         List.count (frameOf (chatFinalObj u c m)) (chatFeedText u c m s texts).2 = 1 ∧
         List.count sentinelFrame (chatFeedText u c m s texts).2 = 1) ∧
      ((chatFeedText u c m s texts).1.isFinished = false →
         List.count (frameOf (chatFinalObj u c m)) (chatFeedText u c m s texts).2 = 0 ∧
         List.count sentinelFrame (chatFeedText u c m s texts).2 = 0) := by
  intro texts
  induction texts with
  | nil =>
    intro s hs
    constructor
    · intro h
      rw [show (chatFeedText u c m s []).1 = s from rfl, hs] at h
      cases h
    · intro _
      simp [chatFeedText]
  | cons t ts ih =>
    intro s hs
    have htr := chatTransformText_invariant u c m s t hs
    cases hfin : (chatTransformText u c m s t).1.isFinished with
    | true =>
      have hrest := chatFeedText_finished u c m ts _ hfin
      have hfeed : chatFeedText u c m s (t :: ts) =
          ((chatTransformText u c m s t).1, (chatTransformText u c m s t).2 ++ []) := by
        simp only [chatFeedText, hrest]
      constructor
      · intro _
        have h2 := htr.1 hfin
        rw [hfeed]
        simp only [List.append_nil]
        exact h2
      · intro hff
        rw [hfeed, hfin] at hff
        cases hff
    | false =>
      have ihr := ih _ hfin
      have hfeed1 : (chatFeedText u c m s (t :: ts)).1 =
          (chatFeedText u c m (chatTransformText u c m s t).1 ts).1 := rfl
      have hfeed2 : (chatFeedText u c m s (t :: ts)).2 =
          (chatTransformText u c m s t).2 ++
            (chatFeedText u c m (chatTransformText u c m s t).1 ts).2 := rfl
      have h1 := htr.2 hfin
      constructor
      · intro hT
        rw [hfeed1] at hT
        have h2 := ihr.1 hT
        rw [hfeed2]
        simp [List.count_append, h1.1, h1.2, h2.1, h2.2]
      · intro hF
        rw [hfeed1] at hF
        have h2 := ihr.2 hF
        rw [hfeed2]
        simp [List.count_append, h1.1, h1.2, h2.1, h2.2]

/-! ## Preamble handling: nothing is emitted before the marker, and the
output is computed solely from the text after the first marker -/

theorem chatFeed_noMarker (u : List Char) (c : Int) (m : List Char) :
    ∀ (texts : List (List Char)) (acc : List Char),
      firstIdxOf (acc ++ texts.flatten) thinkTagEnd = none →
      chatFeedText u c m ⟨acc, false, false⟩ texts =
        (⟨acc ++ texts.flatten, false, false⟩, []) := by
  intro texts
  induction texts with
  | nil =>
    intro acc _
    simp [chatFeedText]
  | cons t ts ih =>
    intro acc h
    have hassoc : acc ++ (t :: ts).flatten = (acc ++ t) ++ ts.flatten := by
      simp [List.flatten_cons, List.append_assoc]
    rw [hassoc] at h
    have h3 : firstIdxOf (acc ++ t) thinkTagEnd = none :=
      firstIdxOf_append_none thinkTagEnd_ne_nil h
    have ht : chatTransformText u c m ⟨acc, false, false⟩ t =
        (⟨acc ++ t, false, false⟩, []) := by
      simp [chatTransformText, h3]
    simp only [chatFeedText]
    rw [ht, ih (acc ++ t) h]
    simp [List.flatten_cons, List.append_assoc]

theorem completionFeed_noMarker (u : List Char) (c : Int) (m : List Char) :
    ∀ (texts : List (List Char)) (acc : List Char),
      firstIdxOf (acc ++ texts.flatten) thinkTagEnd = none →
      completionFeedText u c m ⟨acc, false⟩ texts =
        (⟨acc ++ texts.flatten, false⟩, []) := by
  intro texts
  induction texts with
  | nil =>
    intro acc _
    simp [completionFeedText]
  | cons t ts ih =>
    intro acc h
    have hassoc : acc ++ (t :: ts).flatten = (acc ++ t) ++ ts.flatten := by
      simp [List.flatten_cons, List.append_assoc]
    rw [hassoc] at h
    have h3 : firstIdxOf (acc ++ t) thinkTagEnd = none :=
      firstIdxOf_append_none thinkTagEnd_ne_nil h
    have ht : completionTransformText u c m ⟨acc, false⟩ t =
        (⟨acc ++ t, false⟩, []) := by
      simp [completionTransformText, h3]
    simp only [completionFeedText]
    rw [ht, ih (acc ++ t) h]
    simp [List.flatten_cons, List.append_assoc]

theorem chatFeed_suffix (u : List Char) (c : Int) (m : List Char) :
    ∀ (texts : List (List Char)) (acc : List Char) (i : Nat),
      firstIdxOf acc thinkTagEnd = none →
      firstIdxOf (acc ++ texts.flatten) thinkTagEnd = some i →
      chatFeedText u c m ⟨acc, false, false⟩ texts =
        chatFeedText u c m ⟨[], true, false⟩
          (dropTexts (i + thinkTagEnd.length - acc.length) texts) := by
  intro texts
  induction texts with
  | nil =>
    intro acc i hnone hsome
    rw [List.flatten_nil, List.append_nil, hnone] at hsome
    cases hsome
  | cons t ts ih =>
    intro acc i hnone hsome
    have hassoc : acc ++ (t :: ts).flatten = (acc ++ t) ++ ts.flatten := by
      simp [List.flatten_cons, List.append_assoc]
    rw [hassoc] at hsome
    have hLpos : 0 < thinkTagEnd.length := by decide
    cases hb : firstIdxOf (acc ++ t) thinkTagEnd with
    | some j =>
      have hij : i = j := by
        rw [firstIdxOf_append_some ts.flatten hb] at hsome
        injection hsome with h
        exact h.symm
      subst hij
      have hjp := firstIdxOf_some_prefix hb
      have hlen8 : i + thinkTagEnd.length ≤ (acc ++ t).length := by
        have hl := hjp.length_le
        rw [List.length_drop] at hl
        omega
      have hacc : acc.length < i + thinkTagEnd.length := by
        by_contra hle
        push_neg at hle
        have hjle : i ≤ acc.length := by omega
        have hdropeq : (acc ++ t).drop i = acc.drop i ++ t := drop_append_le acc t hjle
        rw [hdropeq] at hjp
        have hplen : thinkTagEnd.length ≤ (acc.drop i).length := by
          rw [List.length_drop]
          omega
        exact (firstIdxOf_eq_none_iff acc thinkTagEnd thinkTagEnd_ne_nil).mp hnone i
          (prefix_of_append_of_length_le hjp hplen)
      have hbuf : (acc ++ t).drop (i + thinkTagEnd.length) =
          t.drop (i + thinkTagEnd.length - acc.length) :=
        drop_append_ge acc t (by omega)
      have hdt : dropTexts (i + thinkTagEnd.length - acc.length) (t :: ts) =
          t.drop (i + thinkTagEnd.length - acc.length) :: ts := by
        rw [List.length_append] at hlen8
        simp only [dropTexts]
        rw [if_pos (by omega)]
      rw [hdt]
      have hL : chatTransformText u c m ⟨acc, false, false⟩ t =
          (⟨(chatProcessLines u c m ((acc ++ t).drop (i + thinkTagEnd.length))).1, true,
             (chatProcessLines u c m ((acc ++ t).drop (i + thinkTagEnd.length))).2.1⟩,
           (chatProcessLines u c m ((acc ++ t).drop (i + thinkTagEnd.length))).2.2) := by
        simp [chatTransformText, hb]
      have hR : chatTransformText u c m ⟨[], true, false⟩
            (t.drop (i + thinkTagEnd.length - acc.length)) =
          (⟨(chatProcessLines u c m (t.drop (i + thinkTagEnd.length - acc.length))).1, true,
             (chatProcessLines u c m (t.drop (i + thinkTagEnd.length - acc.length))).2.1⟩,
           (chatProcessLines u c m (t.drop (i + thinkTagEnd.length - acc.length))).2.2) := by
        simp [chatTransformText]
      simp only [chatFeedText]
      rw [hL, hR, hbuf]
    | none =>
      have hgt : (acc ++ t).length < i + thinkTagEnd.length := by
        by_contra hle
        push_neg at hle
        have hp := firstIdxOf_some_prefix hsome
        have hile : i ≤ (acc ++ t).length := by omega
        have hdropeq : ((acc ++ t) ++ ts.flatten).drop i = (acc ++ t).drop i ++ ts.flatten :=
          drop_append_le _ _ hile
        rw [hdropeq] at hp
        have hplen : thinkTagEnd.length ≤ ((acc ++ t).drop i).length := by
          rw [List.length_drop]
          omega
        exact (firstIdxOf_eq_none_iff _ _ thinkTagEnd_ne_nil).mp hb i
          (prefix_of_append_of_length_le hp hplen)
      rw [List.length_append] at hgt
      have hstep : chatTransformText u c m ⟨acc, false, false⟩ t =
          (⟨acc ++ t, false, false⟩, []) := by
        simp [chatTransformText, hb]
      have hdt : dropTexts (i + thinkTagEnd.length - acc.length) (t :: ts) =
          dropTexts (i + thinkTagEnd.length - (acc.length + t.length)) ts := by
        simp only [dropTexts]
        rw [if_neg (by omega), Nat.sub_sub]
      have hih := ih (acc ++ t) i hb hsome
      rw [List.length_append] at hih
      simp only [chatFeedText]
      rw [hstep]
      dsimp only
      rw [hih, hdt]
      simp

theorem completionFeed_suffix (u : List Char) (c : Int) (m : List Char) :
    ∀ (texts : List (List Char)) (acc : List Char) (i : Nat),
      firstIdxOf acc thinkTagEnd = none →
      firstIdxOf (acc ++ texts.flatten) thinkTagEnd = some i →
      completionFeedText u c m ⟨acc, false⟩ texts =
        completionFeedText u c m ⟨[], true⟩
          (dropTexts (i + thinkTagEnd.length - acc.length) texts) := by
  intro texts
  induction texts with
  | nil =>
    intro acc i hnone hsome
    rw [List.flatten_nil, List.append_nil, hnone] at hsome
    cases hsome
  | cons t ts ih =>
    intro acc i hnone hsome
    have hassoc : acc ++ (t :: ts).flatten = (acc ++ t) ++ ts.flatten := by
      simp [List.flatten_cons, List.append_assoc]
    rw [hassoc] at hsome
    have hLpos : 0 < thinkTagEnd.length := by decide
    cases hb : firstIdxOf (acc ++ t) thinkTagEnd with
    | some j =>
      have hij : i = j := by
        rw [firstIdxOf_append_some ts.flatten hb] at hsome
        injection hsome with h
        exact h.symm
      subst hij
      have hjp := firstIdxOf_some_prefix hb
      have hlen8 : i + thinkTagEnd.length ≤ (acc ++ t).length := by
        have hl := hjp.length_le
        rw [List.length_drop] at hl
        omega
      have hacc : acc.length < i + thinkTagEnd.length := by
        by_contra hle
        push_neg at hle
        have hjle : i ≤ acc.length := by omega
        have hdropeq : (acc ++ t).drop i = acc.drop i ++ t := drop_append_le acc t hjle
        rw [hdropeq] at hjp
        have hplen : thinkTagEnd.length ≤ (acc.drop i).length := by
          rw [List.length_drop]
          omega
        exact (firstIdxOf_eq_none_iff acc thinkTagEnd thinkTagEnd_ne_nil).mp hnone i
          (prefix_of_append_of_length_le hjp hplen)
      have hbuf : (acc ++ t).drop (i + thinkTagEnd.length) =
          t.drop (i + thinkTagEnd.length - acc.length) :=
        drop_append_ge acc t (by omega)
      have hdt : dropTexts (i + thinkTagEnd.length - acc.length) (t :: ts) =
          t.drop (i + thinkTagEnd.length - acc.length) :: ts := by
        rw [List.length_append] at hlen8
        simp only [dropTexts]
        rw [if_pos (by omega)]
      rw [hdt]
      have hL : completionTransformText u c m ⟨acc, false⟩ t =
          (⟨(completionProcessLines u c m ((acc ++ t).drop (i + thinkTagEnd.length))).1, true⟩,
           (completionProcessLines u c m ((acc ++ t).drop (i + thinkTagEnd.length))).2) := by
        simp [completionTransformText, hb]
      have hR : completionTransformText u c m ⟨[], true⟩
            (t.drop (i + thinkTagEnd.length - acc.length)) =
          (⟨(completionProcessLines u c m (t.drop (i + thinkTagEnd.length - acc.length))).1, true⟩,
           (completionProcessLines u c m (t.drop (i + thinkTagEnd.length - acc.length))).2) := by
        simp [completionTransformText]
      simp only [completionFeedText]
      rw [hL, hR, hbuf]
    | none =>
      have hgt : (acc ++ t).length < i + thinkTagEnd.length := by
        by_contra hle
        push_neg at hle
        have hp := firstIdxOf_some_prefix hsome
        have hile : i ≤ (acc ++ t).length := by omega
        have hdropeq : ((acc ++ t) ++ ts.flatten).drop i = (acc ++ t).drop i ++ ts.flatten :=
          drop_append_le _ _ hile
        rw [hdropeq] at hp
        have hplen : thinkTagEnd.length ≤ ((acc ++ t).drop i).length := by
          rw [List.length_drop]
          omega
        exact (firstIdxOf_eq_none_iff _ _ thinkTagEnd_ne_nil).mp hb i
          (prefix_of_append_of_length_le hp hplen)
      rw [List.length_append] at hgt
      have hstep : completionTransformText u c m ⟨acc, false⟩ t =
          (⟨acc ++ t, false⟩, []) := by
        simp [completionTransformText, hb]
      have hdt : dropTexts (i + thinkTagEnd.length - acc.length) (t :: ts) =
          dropTexts (i + thinkTagEnd.length - (acc.length + t.length)) ts := by
        simp only [dropTexts]
        rw [if_neg (by omega), Nat.sub_sub]
      have hih := ih (acc ++ t) i hb hsome
      rw [List.length_append] at hih
      simp only [completionFeedText]
      rw [hstep]
      dsimp only
      rw [hih, hdt]
      simp

/-! ## The claims -/

/-- Claim C1 (code bug): chunk-boundary invariance fails.  The source
creates one TextDecoder per stream but calls `decode(chunk)` without
the stream option, so a multi-byte UTF-8 character split across two
chunks is decoded lossily into two U+FFFD replacement characters
instead of being carried over.  Splitting the input
`</think>data: {"response":"é"}\n` between the two bytes of `é`
(byte offset 28) produces byte-different output from feeding it whole. -/
theorem c1_chunk_boundary_violated :
    (chatRun (chars "req-0") 0 (chars "model-0")
        [encodeUtf8 (chars "</think>data: \x7b\"response\":\"é\"\x7d\n")]).map encodeUtf8 ≠
    (chatRun (chars "req-0") 0 (chars "model-0")
        [(encodeUtf8 (chars "</think>data: \x7b\"response\":\"é\"\x7d\n")).take 28,
         (encodeUtf8 (chars "</think>data: \x7b\"response\":\"é\"\x7d\n")).drop 28]).map
      encodeUtf8 := by
  decide

/-- Claim C2, counterexample: in completion mode a stream that ends
without an upstream sentinel emits no sentinel frame at all (the
completion transformer has no flush callback), so the sentinel frame
is not emitted exactly once per session. -/
theorem c2_counterexample :
    List.count sentinelFrame
      (completionRun (chars "req-0") 0 (chars "model-0")
        [encodeUtf8 (chars "</think>data: \x7b\"response\":\"hi\"\x7d\n")]) = 0 := by
  decide

/-- Claim C2 (amended): in chat mode, over any sequence of byte chunks
followed by the single end-of-input flush, the terminating frame and
the sentinel frame are each emitted exactly once, no matter how many
sentinel lines arrive. -/
theorem c2_chat_exactly_once (uuid : List Char) (created : Int) (model : List Char)
    (chunks : List (List Nat)) :
    List.count (frameOf (chatFinalObj uuid created model))
        (chatRun uuid created model chunks) = 1 ∧
    List.count sentinelFrame (chatRun uuid created model chunks) = 1 := by
  have hrun : chatRun uuid created model chunks =
      (chatFeedText uuid created model chatInit (chunks.map decodeUtf8)).2 ++
        chatFlush uuid created model
          (chatFeedText uuid created model chatInit (chunks.map decodeUtf8)).1 := rfl
  rw [hrun]
  have hinv := chatFeedText_invariant uuid created model (chunks.map decodeUtf8) chatInit rfl
  have ha : List.count (frameOf (chatFinalObj uuid created model))
      [frameOf (chatFinalObj uuid created model), sentinelFrame] = 1 := by
    rw [count_cons_self_frame, count_cons_ne _ (Ne.symm (frame_final_ne_sentinel uuid created model))]
    simp
  have hb : List.count sentinelFrame
      [frameOf (chatFinalObj uuid created model), sentinelFrame] = 1 := by
    rw [count_cons_ne _ (frame_final_ne_sentinel uuid created model), count_cons_self_frame]
    simp
  cases hfin : (chatFeedText uuid created model chatInit (chunks.map decodeUtf8)).1.isFinished with
  | true =>
    have h2 := hinv.1 hfin
    have hfl : chatFlush uuid created model
        (chatFeedText uuid created model chatInit (chunks.map decodeUtf8)).1 = [] := by
      simp [chatFlush, hfin]
    rw [hfl]
    simp [List.count_append, h2.1, h2.2]
  | false =>
    have h2 := hinv.2 hfin
    have hfl : chatFlush uuid created model
        (chatFeedText uuid created model chatInit (chunks.map decodeUtf8)).1 =
        [frameOf (chatFinalObj uuid created model), sentinelFrame] := by
      simp [chatFlush, hfin]
    rw [hfl]
    constructor
    · rw [List.count_append, h2.1, ha]
    · rw [List.count_append, h2.2, hb]

/-- Claim C3, counterexample: the completion transformer has no
finished flag, so after the sentinel has been observed and the
sentinel frame emitted, a further chunk still produces a data frame. -/
theorem c3_counterexample :
    completionRun (chars "req-0") 0 (chars "model-0")
      [encodeUtf8 (chars "</think>data: [DONE]\n"),
       encodeUtf8 (chars "data: \x7b\"response\":\"x\"\x7d\n")] =
    [sentinelFrame,
     frameOf (completionDataObj (chars "req-0") 0 (chars "model-0")
       (some (.str (chars "x"))))] := by
  rfl

/-- Claim C3 (amended): in chat mode, once the session is finished,
a transform call on any further chunk leaves the state unchanged and
emits nothing, and the flush emits nothing. -/
theorem c3_chat_finished_ignores_input (uuid : List Char) (created : Int) (model : List Char)
    (s : ChatState) (chunk : List Nat) (hs : s.isFinished = true) :
    chatTransform uuid created model s chunk = (s, []) ∧
    chatFlush uuid created model s = [] := by
  constructor
  · exact chatTransformText_finished uuid created model s (decodeUtf8 chunk) hs
  · simp [chatFlush, hs]

/-- Claim C3 witness at a concrete finished state. -/
theorem c3_witness :
    chatTransform (chars "req-0") 0 (chars "model-0") ⟨[], true, true⟩ [] =
      (⟨[], true, true⟩, []) ∧
    chatFlush (chars "req-0") 0 (chars "model-0") ⟨[], true, true⟩ = [] :=
  c3_chat_finished_ignores_input (chars "req-0") 0 (chars "model-0") ⟨[], true, true⟩ [] rfl

/-- Claim C4: preamble exclusion.  If the closing marker never occurs
in the concatenated decoded text, no data frame is produced: the chat
session emits only the flush-path terminating and sentinel frames and
the completion session emits nothing.  If the marker first occurs at
index i, the session output is identical to running the transformer,
with the preamble filter already closed, on the stream with the first
i + 8 characters removed: only characters strictly after the marker
influence the output. -/
theorem c4_preamble_exclusion (uuid : List Char) (created : Int) (model : List Char)
    (texts : List (List Char)) :
    (firstIdxOf texts.flatten thinkTagEnd = none →
       chatRunText uuid created model texts =
         [frameOf (chatFinalObj uuid created model), sentinelFrame] ∧
       completionRunText uuid created model texts = []) ∧
    (∀ i, firstIdxOf texts.flatten thinkTagEnd = some i →
       chatRunText uuid created model texts =
         chatRunTextFrom uuid created model ⟨[], true, false⟩
           (dropTexts (i + thinkTagEnd.length) texts) ∧
       completionRunText uuid created model texts =
         completionRunTextFrom uuid created model ⟨[], true⟩
           (dropTexts (i + thinkTagEnd.length) texts)) := by
  constructor
  · intro h
    have h0 : firstIdxOf ([] ++ texts.flatten) thinkTagEnd = none := by simpa using h
    constructor
    · unfold chatRunText chatRunTextFrom
      rw [show chatInit = (⟨[], false, false⟩ : ChatState) from rfl]
      rw [chatFeed_noMarker uuid created model texts [] h0]
      simp [chatFlush]
    · unfold completionRunText completionRunTextFrom
      rw [show completionInit = (⟨[], false⟩ : CompletionState) from rfl]
      rw [completionFeed_noMarker uuid created model texts [] h0]
      rfl
  · intro i h
    have h0 : firstIdxOf ([] ++ texts.flatten) thinkTagEnd = some i := by simpa using h
    have hn : firstIdxOf ([] : List Char) thinkTagEnd = none := rfl
    constructor
    · have hchat := chatFeed_suffix uuid created model texts [] i hn h0
      simp only [List.length_nil, Nat.sub_zero] at hchat
      unfold chatRunText chatRunTextFrom
      rw [show chatInit = (⟨[], false, false⟩ : ChatState) from rfl]
      rw [hchat]
    · have hcom := completionFeed_suffix uuid created model texts [] i hn h0
      simp only [List.length_nil, Nat.sub_zero] at hcom
      unfold completionRunText completionRunTextFrom
      rw [show completionInit = (⟨[], false⟩ : CompletionState) from rfl]
      rw [hcom]

/-- Claim C4 witness: a marker-free stream and a stream whose marker
closes at index 2. -/
theorem c4_witness :
    (chatRunText (chars "req-0") 0 (chars "model-0") [chars "data: x\n"] =
       [frameOf (chatFinalObj (chars "req-0") 0 (chars "model-0")), sentinelFrame] ∧
     completionRunText (chars "req-0") 0 (chars "model-0") [chars "data: x\n"] = []) ∧
    (chatRunText (chars "req-0") 0 (chars "model-0") [chars "ab</think>data: x\n"] =
       chatRunTextFrom (chars "req-0") 0 (chars "model-0") ⟨[], true, false⟩
         (dropTexts (2 + thinkTagEnd.length) [chars "ab</think>data: x\n"]) ∧
     completionRunText (chars "req-0") 0 (chars "model-0") [chars "ab</think>data: x\n"] =
       completionRunTextFrom (chars "req-0") 0 (chars "model-0") ⟨[], true⟩
         (dropTexts (2 + thinkTagEnd.length) [chars "ab</think>data: x\n"])) :=
  ⟨(c4_preamble_exclusion (chars "req-0") 0 (chars "model-0") [chars "data: x\n"]).1
      (by decide),
   (c4_preamble_exclusion (chars "req-0") 0 (chars "model-0") [chars "ab</think>data: x\n"]).2
      2 (by decide)⟩

/-- Claim C5, counterexample: at the initial (unfinished) state the
flush does not set the finished flag, so invoking it twice emits the
terminating and sentinel frames twice. -/
theorem c5_counterexample :
    chatFlush (chars "req-0") 0 (chars "model-0") chatInit ++
      chatFlush (chars "req-0") 0 (chars "model-0") chatInit ≠
    chatFlush (chars "req-0") 0 (chars "model-0") chatInit := by
  decide

/-- Claim C5 (amended): flushing twice produces the same output as
flushing once exactly when the session is already finished; from an
unfinished state the second flush re-emits both frames. -/
theorem c5_flush_idempotent_iff_finished (uuid : List Char) (created : Int)
    (model : List Char) (s : ChatState) :
    (chatFlush uuid created model s ++ chatFlush uuid created model s =
       chatFlush uuid created model s) ↔ s.isFinished = true := by
  cases hs : s.isFinished with
  | true => simp [chatFlush, hs]
  | false => simp [chatFlush, hs]

/-- Claim C6: parse-error resilience, in both modes.  A complete
`data: ` line whose trimmed content is not the sentinel and whose body
is not valid JSON is skipped without raising and without finishing the
session: for the chat and the completion line loop alike, processing
the buffer that starts with such a line equals processing the rest of
the buffer, so subsequent valid lines still produce their frames. -/
theorem c6_parse_error_resilience (uuid : List Char) (created : Int) (model : List Char)
    (body rest : List Char) (h1 : '\n' ∉ body)
    (h2 : jsTrim (body ++ ['\n']) ≠ doneLit)
    (h3 : parseJson (body ++ ['\n']) = none) :
    chatProcessLines uuid created model (dataTag ++ body ++ '\n' :: rest) =
      chatProcessLines uuid created model rest ∧
    completionProcessLines uuid created model (dataTag ++ body ++ '\n' :: rest) =
      completionProcessLines uuid created model rest := by
  have hn : '\n' ∉ dataTag ++ body := by
    intro hmem
    rcases List.mem_append.mp hmem with hmem | hmem
    · exact absurd hmem (by decide)
    · exact h1 hmem
  have heq : dataTag ++ body ++ '\n' :: rest = (dataTag ++ body) ++ '\n' :: rest := by
    simp [List.append_assoc]
  have hpre : dataTag.isPrefixOf ((dataTag ++ body) ++ ['\n']) = true := by
    apply List.isPrefixOf_iff_prefix.mpr
    rw [List.append_assoc]
    exact List.prefix_append _ _
  have hcontent : ((dataTag ++ body) ++ ['\n']).drop dataTag.length = body ++ ['\n'] := by
    rw [List.append_assoc, List.drop_left]
  constructor
  · rw [heq, chatPL_cons uuid created model (dataTag ++ body) rest hn]
    rw [if_pos hpre]
    rw [hcontent, if_neg h2]
    simp only [h3]
  · rw [heq, completionPL_cons uuid created model (dataTag ++ body) rest hn]
    rw [if_pos hpre]
    rw [hcontent, if_neg h2]
    simp only [h3]

/-- Claim C6 witness: a malformed line followed by a valid line, in
both modes. -/
theorem c6_witness :
    (chatProcessLines (chars "req-0") 0 (chars "model-0")
        (dataTag ++ chars "\x7boops" ++ '\n' :: chars "data: \x7b\"response\":\"ok\"\x7d\n") =
      chatProcessLines (chars "req-0") 0 (chars "model-0")
        (chars "data: \x7b\"response\":\"ok\"\x7d\n")) ∧
    (completionProcessLines (chars "req-0") 0 (chars "model-0")
        (dataTag ++ chars "\x7boops" ++ '\n' :: chars "data: \x7b\"response\":\"ok\"\x7d\n") =
      completionProcessLines (chars "req-0") 0 (chars "model-0")
        (chars "data: \x7b\"response\":\"ok\"\x7d\n")) :=
  c6_parse_error_resilience (chars "req-0") 0 (chars "model-0") (chars "\x7boops")
    (chars "data: \x7b\"response\":\"ok\"\x7d\n") (by decide) (by decide) rfl

/-- Claim C7: the chat fragment extraction implements the spec's
fallback chain (string used directly; object: truthy `text` field,
else truthy `content` field, else the stringified object), and the
extracted fragment is what the emitted data frame carries. -/
theorem c7_fallback_chain (uuid : List Char) (created : Int) (model : List Char)
    (body rest : List Char) (d r : Json) (h1 : '\n' ∉ body)
    (h2 : jsTrim (body ++ ['\n']) ≠ doneLit)
    (h3 : parseJson (body ++ ['\n']) = some d)
    (h4 : getProp d (chars "response") = some r)
    (h5 : truthy r = true)
    (h6 : isStringJ r = true ∨ isObjJ r = true) :
    chatProcessLines uuid created model (dataTag ++ body ++ '\n' :: rest) =
      ((chatProcessLines uuid created model rest).1,
       (chatProcessLines uuid created model rest).2.1,
       frameOf (chatDataObj uuid created model (specFragment r)) ::
         (chatProcessLines uuid created model rest).2.2) := by
  have hac : actualContent r = specFragment r := by
    cases r with
    | str s => rfl
    | obj fields =>
      cases hT : lookupField fields (chars "text") with
      | none =>
        cases hC : lookupField fields (chars "content") with
        | none => simp [actualContent, actualContentFallback, specFragment, getProp, hT, hC]
        | some cv => simp [actualContent, actualContentFallback, specFragment, getProp, hT, hC]
      | some tv =>
        cases hC : lookupField fields (chars "content") with
        | none => simp [actualContent, actualContentFallback, specFragment, getProp, hT, hC]
        | some cv => simp [actualContent, actualContentFallback, specFragment, getProp, hT, hC]
    | null => rcases h6 with h6 | h6 <;> simp [isStringJ, isObjJ] at h6
    | bool b => rcases h6 with h6 | h6 <;> simp [isStringJ, isObjJ] at h6
    | num n => rcases h6 with h6 | h6 <;> simp [isStringJ, isObjJ] at h6
    | arr xs => rcases h6 with h6 | h6 <;> simp [isStringJ, isObjJ] at h6
  have hn : '\n' ∉ dataTag ++ body := by
    intro hmem
    rcases List.mem_append.mp hmem with hmem | hmem
    · exact absurd hmem (by decide)
    · exact h1 hmem
  have heq : dataTag ++ body ++ '\n' :: rest = (dataTag ++ body) ++ '\n' :: rest := by
    simp [List.append_assoc]
  rw [heq, chatPL_cons uuid created model (dataTag ++ body) rest hn]
  have hpre : dataTag.isPrefixOf ((dataTag ++ body) ++ ['\n']) = true := by
    apply List.isPrefixOf_iff_prefix.mpr
    rw [List.append_assoc]
    exact List.prefix_append _ _
  rw [if_pos hpre]
  have hcontent : ((dataTag ++ body) ++ ['\n']).drop dataTag.length = body ++ ['\n'] := by
    rw [List.append_assoc, List.drop_left]
  rw [hcontent, if_neg h2]
  simp only [h3]
  simp only [h4]
  rw [if_pos h5, hac]

/-- Claim C7 witness: a payload object whose fragment comes from the
`content` sub-field. -/
theorem c7_witness :
    chatProcessLines (chars "req-0") 0 (chars "model-0")
        (dataTag ++ chars "\x7b\"response\":\x7b\"content\":\"hi\"\x7d\x7d" ++ '\n' :: []) =
      ((chatProcessLines (chars "req-0") 0 (chars "model-0") []).1,
       (chatProcessLines (chars "req-0") 0 (chars "model-0") []).2.1,
       frameOf (chatDataObj (chars "req-0") 0 (chars "model-0")
           (specFragment (Json.obj [(chars "content", Json.str (chars "hi"))]))) ::
         (chatProcessLines (chars "req-0") 0 (chars "model-0") []).2.2) :=
  c7_fallback_chain (chars "req-0") 0 (chars "model-0")
    (chars "\x7b\"response\":\x7b\"content\":\"hi\"\x7d\x7d") []
    (Json.obj [(chars "response", Json.obj [(chars "content", Json.str (chars "hi"))])])
    (Json.obj [(chars "content", Json.str (chars "hi"))])
    (by decide) (by decide) rfl rfl rfl (Or.inr rfl)

/-- Claim C8: Scenario B — after the preamble closes, the completion
transformer turns `data: {"response":"42"}\n` into exactly one frame
whose body carries the session id, created and model, object
"text_completion", and choices[0] with text "42", index 0, logprobs
null and finish_reason null. -/
theorem c8_completion_scenario_b (uuid : List Char) (created : Int) (model : List Char) :
    completionTransformText uuid created model ⟨[], true⟩
        (chars "data: \x7b\"response\":\"42\"\x7d\n") =
      (⟨[], true⟩,
       [dataTag ++ jsonStringify (Json.obj
          [(chars "id", .str uuid), (chars "created", .num created),
           (chars "object", .str (chars "text_completion")), (chars "model", .str model),
           (chars "choices", .arr [.obj [(chars "text", .str (chars "42")),
             (chars "index", .num 0), (chars "logprobs", .null),
             (chars "finish_reason", .null)]])]) ++ chars "\n\n"]) := rfl

/-- Claim C9: finalization asymmetry.  On the sentinel line the
completion transformer emits only the sentinel frame (no terminating
frame, no flag), at end of input the absent completion flush emits
nothing, while the chat flush of an unfinished session emits both the
terminating frame and the sentinel frame. -/
theorem c9_finalization_asymmetry (uuid : List Char) (created : Int) (model : List Char)
    (rest : List Char) (sc : CompletionState) (s : ChatState)
    (hs : s.isFinished = false) :
    completionProcessLines uuid created model (chars "data: [DONE]" ++ '\n' :: rest) =
      (rest, [sentinelFrame]) ∧
    completionFlush sc = [] ∧
    chatFlush uuid created model s =
      [frameOf (chatFinalObj uuid created model), sentinelFrame] := by
  refine ⟨completionPL_done uuid created model rest, rfl, ?_⟩
  simp [chatFlush, hs]

/-- Claim C9 witness at concrete states. -/
theorem c9_witness :
    completionProcessLines (chars "req-0") 0 (chars "model-0")
        (chars "data: [DONE]" ++ '\n' :: []) = ([], [sentinelFrame]) ∧
    completionFlush completionInit = [] ∧
    chatFlush (chars "req-0") 0 (chars "model-0") chatInit =
      [frameOf (chatFinalObj (chars "req-0") 0 (chars "model-0")), sentinelFrame] :=
  c9_finalization_asymmetry (chars "req-0") 0 (chars "model-0") [] completionInit chatInit rfl

/-- Claim C10: in chat mode a parsed event line whose `response` field
is absent or falsy (null, empty string, 0, false) produces no frame:
processing the buffer that starts with such a line equals processing
the rest of the buffer. -/
theorem c10_falsy_response_dropped (uuid : List Char) (created : Int) (model : List Char)
    (body rest : List Char) (d : Json) (h1 : '\n' ∉ body)
    (h2 : jsTrim (body ++ ['\n']) ≠ doneLit)
    (h3 : parseJson (body ++ ['\n']) = some d)
    (h4 : ∀ r, getProp d (chars "response") = some r → truthy r = false) :
    chatProcessLines uuid created model (dataTag ++ body ++ '\n' :: rest) =
      chatProcessLines uuid created model rest := by
  have hn : '\n' ∉ dataTag ++ body := by
    intro hmem
    rcases List.mem_append.mp hmem with hmem | hmem
    · exact absurd hmem (by decide)
    · exact h1 hmem
  have heq : dataTag ++ body ++ '\n' :: rest = (dataTag ++ body) ++ '\n' :: rest := by
    simp [List.append_assoc]
  rw [heq, chatPL_cons uuid created model (dataTag ++ body) rest hn]
  have hpre : dataTag.isPrefixOf ((dataTag ++ body) ++ ['\n']) = true := by
    apply List.isPrefixOf_iff_prefix.mpr
    rw [List.append_assoc]
    exact List.prefix_append _ _
  rw [if_pos hpre]
  have hcontent : ((dataTag ++ body) ++ ['\n']).drop dataTag.length = body ++ ['\n'] := by
    rw [List.append_assoc, List.drop_left]
  rw [hcontent, if_neg h2]
  simp only [h3]
  cases hgp : getProp d (chars "response") with
  | none => simp only [hgp]
  | some r =>
    simp only [hgp]
    rw [h4 r hgp]
    simp

/-- Claim C10 witness: a parsed line whose response is the empty
string. -/
theorem c10_witness :
    chatProcessLines (chars "req-0") 0 (chars "model-0")
        (dataTag ++ chars "\x7b\"response\":\"\"\x7d" ++ '\n' :: []) =
      chatProcessLines (chars "req-0") 0 (chars "model-0") [] :=
  c10_falsy_response_dropped (chars "req-0") 0 (chars "model-0")
    (chars "\x7b\"response\":\"\"\x7d") [] (Json.obj [(chars "response", Json.str [])])
    (by decide) (by decide) rfl
    (by
      intro r hr
      have hr2 : some (Json.str ([] : List Char)) = some r := hr
      injection hr2 with h
      rw [← h]
      rfl)

end Gateway
